import Mathlib

/-!
Verification of the HTML-report extractor in `app.py` (`malware_scrape` and its
inner `extract_table`).  The document is modelled post-parse, as the element
tree produced by BeautifulSoup's tolerant `html.parser` (which accepts any
input; the empty input parses to a soup with no nodes).  Tag traversal
(`find`, `find_next`, `find_all`), text extraction (`get_text` with optional
separator and `strip=True`) and Python `dict` / `zip` semantics are embedded
faithfully below.
-/

set_option autoImplicit false

namespace App

/-! ### Python string primitives -/

/-- Python `str.isspace` characters relevant to `str.strip()`. -/
def pyIsSpace (c : Char) : Bool :=
  c == ' ' || c == '\t' || c == '\n' || c == '\r' || c == '\x0b' || c == '\x0c'

/-- Python `str.strip()` on a character list: drop leading and trailing whitespace. -/
def pyStripList (cs : List Char) : List Char :=
  ((cs.dropWhile pyIsSpace).reverse.dropWhile pyIsSpace).reverse

/-- Python `str.strip()`. -/
def pyStrip (s : String) : String :=
  String.mk (pyStripList s.data)

/-- Python `str.lower()` (ASCII range, which covers every string this code handles). -/
def pyLower (s : String) : String :=
  String.mk (s.data.map Char.toLower)

/-- Does `pat` occur at the start of `s`? (helper for substring containment). -/
def startsWithList : List Char → List Char → Bool
  | _, [] => true
  | [], _ :: _ => false
  | a :: as, b :: bs => a == b && startsWithList as bs

/-- Does `pat` occur anywhere in `s`? (helper for Python's `pat in s`). -/
def containsList (pat : List Char) : List Char → Bool
  | [] => pat.isEmpty
  | c :: rest => startsWithList (c :: rest) pat || containsList pat rest

/-- Python's substring test `pat in s`. -/
def strContains (s pat : String) : Bool :=
  containsList pat.data s.data

/-- Join character-list fragments with single spaces (the `separator.join` of
`get_text(" ", ...)`, at the character-list level). -/
def joinWithSpace : List (List Char) → List Char
  | [] => []
  | [x] => x
  | x :: y :: rest => x ++ ' ' :: joinWithSpace (y :: rest)

/-! ### The parsed document tree -/

/-- A node of the parsed HTML tree: an element with a tag name, attributes and
children, or a text node (BeautifulSoup `Tag` / `NavigableString`). -/
inductive Node where
  | elem (tag : String) (attrs : List (String × String)) (children : List Node)
  | text (s : String)

mutual

/-- All nodes of the subtree rooted at `n`, in document order (the node itself
followed by its descendants); this is BeautifulSoup's `descendants`/`next_elements`
ordering. -/
def Node.preorder : Node → List Node
  | Node.text s => [Node.text s]
  | Node.elem t a cs => Node.elem t a cs :: preorderMany cs

/-- Document-order listing of a forest of nodes. -/
def preorderMany : List Node → List Node
  | [] => []
  | n :: rest => Node.preorder n ++ preorderMany rest

end

mutual

/-- The text-node strings of the subtree rooted at `n`, in document order
(the strings `get_text` iterates over). -/
def Node.textsOf : Node → List String
  | Node.text s => [s]
  | Node.elem _ _ cs => textsMany cs

/-- Text-node strings of a forest, in document order. -/
def textsMany : List Node → List String
  | [] => []
  | n :: rest => Node.textsOf n ++ textsMany rest

end

/-- Is `n` an element with the given tag name? -/
def isTag (tag : String) : Node → Bool
  | Node.elem t _ _ => t == tag
  | Node.text _ => false

/-- The value of attribute `name` on `n` (BeautifulSoup `tag.get(name)` /
`tag[name]`); first occurrence wins, text nodes have no attributes. -/
def attrVal (n : Node) (name : String) : Option String :=
  match n with
  | Node.elem _ attrs _ => (attrs.find? (fun a => a.1 == name)).map Prod.snd
  | Node.text _ => none

/-- `tag.find_all(name)`: the descendants of `n` (excluding `n` itself) that
are elements with the given tag, in document order. -/
def findAllTag (tag : String) (n : Node) : List Node :=
  match n with
  | Node.elem _ _ cs => (preorderMany cs).filter (isTag tag)
  | Node.text _ => []

/-- `get_text(strip=True)`: concatenation of the stripped, nonempty text
fragments of the subtree (empty separator). -/
def getTextNoSep (n : Node) : String :=
  String.mk ((((Node.textsOf n).map (fun s => pyStripList s.data)).filter
    (fun f => !f.isEmpty)).foldr (· ++ ·) [])

/-- `get_text(" ", strip=True)`: the stripped, nonempty text fragments of the
subtree joined with single spaces. -/
def getTextSpace (n : Node) : String :=
  String.mk (joinWithSpace (((Node.textsOf n).map (fun s => pyStripList s.data)).filter
    (fun f => !f.isEmpty)))

/-- Scan `l` for the first node satisfying `p` and return the rest of the list
after it.  Applied to a document-order listing this is exactly BeautifulSoup's
`find` followed by the `next_elements` stream of the found node. -/
def findSuffixAfter (p : Node → Bool) : List Node → Option (List Node)
  | [] => none
  | n :: rest => if p n then some rest else findSuffixAfter p rest

/-! ### Python dict semantics -/

/-- Python `d[k] = v`: update the value in place if the key is present
(keeping its insertion position), otherwise append the new pair. -/
def dictInsert (d : List (String × String)) (k v : String) : List (String × String) :=
  if d.any (fun p => p.1 == k) then
    d.map (fun p => if p.1 == k then (k, v) else p)
  else
    d ++ [(k, v)]

/-- Python `dict(pairs)`: left-to-right insertion with last-write-wins on
duplicate keys. -/
def dictOfPairs (ps : List (String × String)) : List (String × String) :=
  ps.foldl (fun d p => dictInsert d p.1 p.2) []

/-- Python `d.get(k)`: the value stored at `k`, if any. -/
def dictLookup (d : List (String × String)) (k : String) : Option String :=
  (d.find? (fun p => p.1 == k)).map Prod.snd

/-! ### `extract_table` (app.py lines 136-149) -/

/-- `headers = [h.get_text(strip=True).lower() for h in table.find_all("th")]`:
every `th` descendant of the table, in document order, lowercased and stripped. -/
def headerNames (table : Node) : List String :=
  (findAllTag "th" table).map (fun h => pyLower (getTextNoSep h))

/-- `table.find_all("tr")[1:]`: every `tr` descendant except the first. -/
def dataRows (table : Node) : List Node :=
  (findAllTag "tr" table).drop 1

/-- `[td.get_text(" ", strip=True) for td in tr.find_all("td")]`. -/
def rowCols (tr : Node) : List String :=
  (findAllTag "td" tr).map getTextSpace

/-- `dict(zip(headers, cols))`. -/
def rowRecord (headers cols : List String) : List (String × String) :=
  dictOfPairs (headers.zip cols)

/-- The loop of `extract_table`: one record per data row with a nonempty
column list (`if cols: rows.append(dict(zip(headers, cols)))`). -/
def tableRows (table : Node) : List (List (String × String)) :=
  (dataRows table).filterMap (fun tr =>
    if (rowCols tr).isEmpty then none
    else some (rowRecord (headerNames table) (rowCols tr)))

/-- Document order of the whole soup. -/
def docOrder (doc : List Node) : List Node :=
  preorderMany doc

/-- `soup.find("a", {"id": sid})` matcher: an `a` element whose `id` attribute
equals `sid`. -/
def isAnchorWith (sid : String) (n : Node) : Bool :=
  isTag "a" n && attrVal n "id" == some sid

/-- Does the document contain an anchor `<a id=sid>` at all? -/
def hasAnchor (doc : List Node) (sid : String) : Bool :=
  (docOrder doc).any (isAnchorWith sid)

/-- `extract_table(section_id)` of app.py: locate the anchor, take the next
`table` in document order, and extract its rows; `[]` when either is missing. -/
def extract_table (doc : List Node) (sid : String) : List (List (String × String)) :=
  match findSuffixAfter (isAnchorWith sid) (docOrder doc) with
  | none => []
  | some suf =>
    match suf.find? (isTag "table") with
    | none => []
    | some table => tableRows table

/-! ### Malware-lookup link classification (app.py lines 151-167) -/

/-- The `if/elif` chain of app.py lines 160-167: test the link text against
the keywords in fixed order and assign the matching service key to the URL. -/
def classifyLink (d : List (String × String)) (text href : String) :
    List (String × String) :=
  if strContains text "virustotal" then dictInsert d "virustotal" href
  else if strContains text "triage" then dictInsert d "triage" href
  else if strContains text "metadefender" then dictInsert d "metadefender" href
  else if strContains text "hybrid" then dictInsert d "hybrid_analysis" href
  else d

/-- `container.find_all("a", href=True)`: descendant `a` elements carrying an
`href` attribute. -/
def sectionLinks (container : Node) : List Node :=
  (findAllTag "a" container).filter (fun n => (attrVal n "href").isSome)

/-- `link.get_text(strip=True).lower()`. -/
def linkText (n : Node) : String :=
  pyLower (getTextNoSep n)

/-- Lines 152-167: locate `<a id="malware_lookup">`, take the next `section`
in document order, and classify its links left to right; `{}` when either is
missing. -/
def malwareLookup (doc : List Node) : List (String × String) :=
  match findSuffixAfter (isAnchorWith "malware_lookup") (docOrder doc) with
  | none => []
  | some suf =>
    match suf.find? (isTag "section") with
    | none => []
    | some container =>
      (sectionLinks container).foldl
        (fun d link => classifyLink d (linkText link) ((attrVal link "href").getD "")) []

/-! ### Result assembly (app.py lines 127-175) -/

/-- The `result` dict of `malware_scrape`: one classified link mapping plus
five table sections. -/
structure ParsedReport where
  malware_lookup : List (String × String)
  apkid_analysis : List (List (String × String))
  behaviour_analysis : List (List (String × String))
  domain_malware_check : List (List (String × String))
  urls : List (List (String × String))
  emails : List (List (String × String))

/-- Lines 127-173: the result starts with all six keys empty and each section
is filled from its extractor. -/
def malwareScrapeResult (doc : List Node) : ParsedReport :=
  { malware_lookup := malwareLookup doc
    apkid_analysis := extract_table doc "apkid"
    behaviour_analysis := extract_table doc "behaviour"
    domain_malware_check := extract_table doc "malware_check"
    urls := extract_table doc "urls"
    emails := extract_table doc "emails" }

/-- JSON values, as produced by `jsonify`. -/
inductive Json where
  | null
  | str (s : String)
  | arr (xs : List Json)
  | obj (fields : List (String × Json))

/-- One `TableRecord` serialized as a JSON object. -/
def recordJson (r : List (String × String)) : Json :=
  Json.obj (r.map (fun kv => (kv.1, Json.str kv.2)))

/-- The `result` dict serialized as JSON, keys in insertion order
(lines 127-134). -/
def ParsedReport.toJson (p : ParsedReport) : Json :=
  Json.obj
    [("malware_lookup", Json.obj (p.malware_lookup.map (fun kv => (kv.1, Json.str kv.2)))),
     ("apkid_analysis", Json.arr (p.apkid_analysis.map recordJson)),
     ("behaviour_analysis", Json.arr (p.behaviour_analysis.map recordJson)),
     ("domain_malware_check", Json.arr (p.domain_malware_check.map recordJson)),
     ("urls", Json.arr (p.urls.map recordJson)),
     ("emails", Json.arr (p.emails.map recordJson))]

/-- The 200 body of `/malware_scrape` (line 175). -/
def scrapeResponse (h : String) (doc : List Node) : Json :=
  Json.obj [("hash", Json.str h), ("parsed_report", (malwareScrapeResult doc).toJson)]

/-- HTTP outcomes of the endpoint. -/
inductive HttpResp where
  | badRequest (body : Json)
  | notFound (body : Json)
  | ok (body : Json)

/-- The `/malware_scrape` endpoint (lines 110-175).  The file store models
`os.path.exists` + `open` + `BeautifulSoup(..., "html.parser")`: `html.parser`
is tolerant and total, so a stored file always yields a node forest (the empty
file yields the empty forest) and the store is `none` exactly when the file is
missing.  `if not apk_hash` catches both a missing and an empty parameter. -/
def malware_scrape (hashParam : Option String) (store : String → Option (List Node)) :
    HttpResp :=
  match hashParam with
  | none => HttpResp.badRequest (Json.obj [("error", Json.str "hash query parameter is required")])
  | some h =>
    if h = "" then
      HttpResp.badRequest (Json.obj [("error", Json.str "hash query parameter is required")])
    else
      match store h with
      | none => HttpResp.notFound
          (Json.obj [("error", Json.str "Static analyzer HTML report not found")])
      | some doc => HttpResp.ok (scrapeResponse h doc)

/-! ### Concrete documents used in the tests below -/

/-- `<a id=sid></a>`. -/
def anchorNode (sid : String) : Node := Node.elem "a" [("id", sid)] []

/-- `<th>s</th>`. -/
def thNode (s : String) : Node := Node.elem "th" [] [Node.text s]

/-- `<td>s</td>`. -/
def tdNode (s : String) : Node := Node.elem "td" [] [Node.text s]

/-- `<tr>...</tr>`. -/
def trNode (cells : List Node) : Node := Node.elem "tr" [] cells

/-- `<table>...</table>`. -/
def tableNode (rows : List Node) : Node := Node.elem "table" [] rows

/-- `<a href=href>text</a>`. -/
def linkNode (text href : String) : Node := Node.elem "a" [("href", href)] [Node.text text]

/-- The spec's minimal urls example:
`<a id="urls"></a><table><tr><th>URL</th></tr><tr><td> http://x.test </td></tr></table>`. -/
def exDocUrls : List Node :=
  [anchorNode "urls",
   tableNode [trNode [thNode "URL"], trNode [tdNode " http://x.test "]]]

/-- A table whose second row also contains a `th` cell. -/
def tableMixedTh : Node :=
  tableNode
    [trNode [thNode "A"],
     trNode [thNode "B", tdNode "x"],
     trNode [tdNode "1", tdNode "2"]]

/-- A malware-lookup section with two links whose texts both contain "triage". -/
def docTwoTriage : List Node :=
  [anchorNode "malware_lookup",
   Node.elem "section" []
     [linkNode "Triage Report" "https://t1.example/a",
      linkNode "Detonate on triage" "https://t2.example/b"]]

/-- A urls table whose single data cell holds an internal run of two spaces. -/
def docRunWs : List Node :=
  [anchorNode "urls",
   tableNode [trNode [thNode "URL"], trNode [tdNode " a  b "]]]

/-- A store holding exactly one report, whose HTML file is empty (the empty
input parses to the empty forest). -/
def emptyDocStore : String → Option (List Node) :=
  fun h => if h = "abc123" then some [] else none

/-! ### Helper lemmas: section location -/

theorem findSuffixAfter_eq_none {p : Node → Bool} :
    ∀ l : List Node, l.any p = false → findSuffixAfter p l = none := by
  intro l h
  induction l with
  | nil => rfl
  | cons n rest ih =>
    rw [List.any_cons, Bool.or_eq_false_iff] at h
    simp [findSuffixAfter, h.1, ih h.2]

theorem extract_table_of_no_anchor {doc : List Node} {sid : String}
    (h : hasAnchor doc sid = false) : extract_table doc sid = [] := by
  unfold hasAnchor at h
  unfold extract_table
  rw [findSuffixAfter_eq_none _ h]

theorem extract_table_of_no_table {doc : List Node} {sid : String} {suf : List Node}
    (h : findSuffixAfter (isAnchorWith sid) (docOrder doc) = some suf)
    (ht : suf.find? (isTag "table") = none) : extract_table doc sid = [] := by
  unfold extract_table
  rw [h]
  simp [ht]

theorem malwareLookup_of_no_anchor {doc : List Node}
    (h : hasAnchor doc "malware_lookup" = false) : malwareLookup doc = [] := by
  unfold hasAnchor at h
  unfold malwareLookup
  rw [findSuffixAfter_eq_none _ h]

theorem malwareLookup_of_no_section {doc : List Node} {suf : List Node}
    (h : findSuffixAfter (isAnchorWith "malware_lookup") (docOrder doc) = some suf)
    (hs : suf.find? (isTag "section") = none) : malwareLookup doc = [] := by
  unfold malwareLookup
  rw [h]
  simp [hs]

/-! ### Helper lemmas: Python dict -/

theorem mem_dictInsert {d : List (String × String)} {k v : String} {kv : String × String}
    (h : kv ∈ dictInsert d k v) : kv ∈ d ∨ kv = (k, v) := by
  unfold dictInsert at h
  by_cases hc : (d.any (fun p => p.1 == k)) = true
  · rw [if_pos hc, List.mem_map] at h
    obtain ⟨p, hp, hpe⟩ := h
    by_cases hk : (p.1 == k) = true
    · rw [if_pos hk] at hpe
      exact Or.inr hpe.symm
    · rw [if_neg hk] at hpe
      exact Or.inl (hpe ▸ hp)
  · rw [if_neg hc, List.mem_append] at h
    rcases h with h | h
    · exact Or.inl h
    · simp at h
      exact Or.inr h

theorem mem_foldl_dictInsert :
    ∀ (ps d : List (String × String)) (kv : String × String),
      kv ∈ ps.foldl (fun acc p => dictInsert acc p.1 p.2) d → kv ∈ d ∨ kv ∈ ps := by
  intro ps
  induction ps with
  | nil => intro d kv h; exact Or.inl h
  | cons p rest ih =>
    intro d kv h
    rw [List.foldl_cons] at h
    rcases ih _ kv h with h' | h'
    · rcases mem_dictInsert h' with h'' | h''
      · exact Or.inl h''
      · exact Or.inr (by simp [h''])
    · exact Or.inr (List.mem_cons_of_mem _ h')

theorem mem_dictOfPairs {ps : List (String × String)} {kv : String × String}
    (h : kv ∈ dictOfPairs ps) : kv ∈ ps := by
  rcases mem_foldl_dictInsert ps [] kv h with h' | h'
  · simp at h'
  · exact h'

theorem foldl_dictInsert_nodup :
    ∀ (ps d : List (String × String)), ((d ++ ps).map Prod.fst).Nodup →
      ps.foldl (fun acc p => dictInsert acc p.1 p.2) d = d ++ ps := by
  intro ps
  induction ps with
  | nil => intro d _; simp
  | cons p rest ih =>
    intro d h
    have hnotin : p.1 ∉ d.map Prod.fst := by
      intro hmem
      rw [List.map_append] at h
      rcases List.nodup_append.mp h with ⟨_, _, hdisj⟩
      exact hdisj hmem (by simp)
    have hany : d.any (fun q => q.1 == p.1) = false := by
      rw [List.any_eq_false]
      intro q hq hbe
      exact hnotin (List.mem_map.mpr ⟨q, hq, by simpa using hbe⟩)
    have hins : dictInsert d p.1 p.2 = d ++ [(p.1, p.2)] := by
      simp [dictInsert, hany]
    rw [List.foldl_cons, hins]
    have h2 : (((d ++ [(p.1, p.2)]) ++ rest).map Prod.fst).Nodup := by
      have he : (d ++ [(p.1, p.2)]) ++ rest = d ++ (p.1, p.2) :: rest := by simp
      rw [he]
      exact h
    rw [ih (d ++ [(p.1, p.2)]) h2]
    simp

theorem dictOfPairs_eq_self {ps : List (String × String)}
    (h : (ps.map Prod.fst).Nodup) : dictOfPairs ps = ps := by
  have := foldl_dictInsert_nodup ps [] (by simpa using h)
  simpa [dictOfPairs] using this

theorem find?_update_eq (k v : String) :
    ∀ d : List (String × String), d.any (fun p => p.1 == k) = true →
      (d.map (fun p => if p.1 == k then (k, v) else p)).find? (fun p => p.1 == k) =
        some (k, v) := by
  intro d
  induction d with
  | nil => intro h; simp at h
  | cons a rest ih =>
    intro h
    rw [List.map_cons, List.find?_cons]
    by_cases hk : (a.1 == k) = true
    · simp [hk]
    · have hkf : (a.1 == k) = false := by simpa using hk
      rw [if_neg hk]
      simp only [hkf]
      rw [List.any_cons, hkf, Bool.false_or] at h
      exact ih h

theorem find?_append_right {α : Type} {p : α → Bool} :
    ∀ {d : List α} (e : List α), d.find? p = none → (d ++ e).find? p = e.find? p := by
  intro d
  induction d with
  | nil => intro e _; rfl
  | cons a rest ih =>
    intro e h
    rw [List.find?_cons] at h
    rw [List.cons_append, List.find?_cons]
    by_cases hp : p a = true
    · simp [hp] at h
    · have hpf : p a = false := by simpa using hp
      simp only [hpf] at h ⊢
      exact ih e h

theorem dictLookup_dictInsert (d : List (String × String)) (k v : String) :
    dictLookup (dictInsert d k v) k = some v := by
  unfold dictInsert dictLookup
  by_cases hc : (d.any (fun p => p.1 == k)) = true
  · rw [if_pos hc, find?_update_eq k v d hc]
    rfl
  · rw [if_neg hc]
    have hfd : d.find? (fun p => p.1 == k) = none := by
      rw [List.find?_eq_none]
      intro q hq hbe
      exact hc (List.any_eq_true.mpr ⟨q, hq, hbe⟩)
    rw [find?_append_right _ hfd]
    simp

/-! ### Helper lemmas: rows and zipping -/

theorem filterMap_ite_eq {α β : Type} (l : List α) (p : α → Bool) (g : α → β) :
    l.filterMap (fun a => if p a then none else some (g a)) =
      (l.filter (fun a => !p a)).map g := by
  induction l with
  | nil => rfl
  | cons a rest ih =>
    by_cases hp : p a = true
    · simp [List.filterMap_cons, List.filter_cons, hp, ih]
    · have hpf : p a = false := by simpa using hp
      simp [List.filterMap_cons, List.filter_cons, hpf, ih]

theorem tableRows_eq_filter_map (t : Node) :
    tableRows t =
      ((dataRows t).filter (fun tr => !(rowCols tr).isEmpty)).map
        (fun tr => rowRecord (headerNames t) (rowCols tr)) :=
  filterMap_ite_eq (dataRows t) (fun tr => (rowCols tr).isEmpty)
    (fun tr => rowRecord (headerNames t) (rowCols tr))

theorem mem_tableRows {t : Node} {r : List (String × String)} (h : r ∈ tableRows t) :
    ∃ tr ∈ dataRows t,
      (rowCols tr).isEmpty = false ∧ r = rowRecord (headerNames t) (rowCols tr) := by
  unfold tableRows at h
  rw [List.mem_filterMap] at h
  obtain ⟨tr, htr, heq⟩ := h
  by_cases he : (rowCols tr).isEmpty = true
  · rw [if_pos he] at heq
    exact absurd heq (by simp)
  · rw [if_neg he] at heq
    exact ⟨tr, htr, by simpa using he, (Option.some.injEq _ _ ▸ heq).symm⟩

theorem map_fst_zip_eq_take {α β : Type} :
    ∀ (l1 : List α) (l2 : List β), (l1.zip l2).map Prod.fst = l1.take l2.length := by
  intro l1
  induction l1 with
  | nil => intro l2; simp
  | cons a l ih =>
    intro l2
    cases l2 with
    | nil => simp
    | cons b l2' => simp [List.zip_cons_cons, ih]

theorem rowRecord_nodup (headers cols : List String) (h : headers.Nodup) :
    rowRecord headers cols = headers.zip cols := by
  unfold rowRecord
  apply dictOfPairs_eq_self
  rw [map_fst_zip_eq_take]
  exact List.Nodup.sublist (List.take_sublist _ _) h

/-! ### Helper lemmas: stripped text has no edge whitespace -/

/-- The character list neither starts nor ends with Python whitespace. -/
def NoEdge (cs : List Char) : Prop :=
  (∀ x, cs.head? = some x → pyIsSpace x = false) ∧
  (∀ x, cs.getLast? = some x → pyIsSpace x = false)

theorem head?_dropWhile_not {p : Char → Bool} :
    ∀ (l : List Char) (x : Char), (l.dropWhile p).head? = some x → p x = false := by
  intro l
  induction l with
  | nil => intro x h; simp [List.dropWhile] at h
  | cons a rest ih =>
    intro x h
    rw [List.dropWhile_cons] at h
    by_cases hp : p a = true
    · rw [if_pos hp] at h
      exact ih x h
    · rw [if_neg hp] at h
      have : a = x := by simpa using h
      subst this
      simpa using hp

theorem getLast?_dropWhile {p : Char → Bool} :
    ∀ l : List Char, l.dropWhile p ≠ [] → (l.dropWhile p).getLast? = l.getLast? := by
  intro l
  induction l with
  | nil => intro h; simp [List.dropWhile] at h
  | cons a rest ih =>
    intro h
    rw [List.dropWhile_cons] at h ⊢
    by_cases hp : p a = true
    · rw [if_pos hp] at h ⊢
      have hr : rest ≠ [] := by
        intro he
        rw [he] at h
        simp [List.dropWhile] at h
      rw [ih h]
      cases rest with
      | nil => exact absurd rfl hr
      | cons b rest' => rw [List.getLast?_cons_cons]
    · rw [if_neg hp]

theorem noEdge_pyStripList (cs : List Char) : NoEdge (pyStripList cs) := by
  unfold pyStripList NoEdge
  constructor
  · intro x hx
    rw [List.head?_reverse] at hx
    have hne : (cs.dropWhile pyIsSpace).reverse.dropWhile pyIsSpace ≠ [] := by
      intro he
      rw [he] at hx
      simp at hx
    rw [getLast?_dropWhile _ hne, List.getLast?_reverse] at hx
    exact head?_dropWhile_not _ x hx
  · intro x hx
    rw [List.getLast?_reverse] at hx
    exact head?_dropWhile_not _ x hx

theorem dropWhile_eq_self_of_head {p : Char → Bool} {l : List Char}
    (h : ∀ x, l.head? = some x → p x = false) : l.dropWhile p = l := by
  cases l with
  | nil => rfl
  | cons a rest =>
    rw [List.dropWhile_cons]
    simp [h a rfl]

theorem pyStripList_eq_self {cs : List Char} (h : NoEdge cs) : pyStripList cs = cs := by
  unfold pyStripList
  rw [dropWhile_eq_self_of_head h.1]
  rw [dropWhile_eq_self_of_head (by
    intro x hx
    rw [List.head?_reverse] at hx
    exact h.2 x hx)]
  exact List.reverse_reverse cs

theorem joinWithSpace_ne_nil (f : List Char) (fs : List (List Char)) (hf : f ≠ []) :
    joinWithSpace (f :: fs) ≠ [] := by
  cases fs with
  | nil => simpa [joinWithSpace] using hf
  | cons g rest => simp [joinWithSpace]

theorem head?_joinWithSpace (f : List Char) (fs : List (List Char)) (hf : f ≠ []) :
    (joinWithSpace (f :: fs)).head? = f.head? := by
  cases fs with
  | nil => rfl
  | cons g rest =>
    show (f ++ ' ' :: joinWithSpace (g :: rest)).head? = f.head?
    cases f with
    | nil => exact absurd rfl hf
    | cons c cs => rfl

theorem getLast?_joinWithSpace :
    ∀ (fs : List (List Char)) (f : List Char), (∀ g ∈ f :: fs, g ≠ []) →
      ∃ lf ∈ f :: fs, (joinWithSpace (f :: fs)).getLast? = lf.getLast? := by
  intro fs
  induction fs with
  | nil => intro f _; exact ⟨f, by simp, rfl⟩
  | cons g rest ih =>
    intro f h
    obtain ⟨lf, hmem, hl⟩ := ih g (fun x hx => h x (List.mem_cons_of_mem f hx))
    refine ⟨lf, List.mem_cons_of_mem f hmem, ?_⟩
    show (f ++ ' ' :: joinWithSpace (g :: rest)).getLast? = lf.getLast?
    rw [List.getLast?_append_of_ne_nil f (by simp)]
    have hjoin : joinWithSpace (g :: rest) ≠ [] :=
      joinWithSpace_ne_nil g rest (h g (by simp))
    cases hje : joinWithSpace (g :: rest) with
    | nil => exact absurd hje hjoin
    | cons c cs =>
      rw [List.getLast?_cons_cons]
      rw [hje] at hl
      exact hl

theorem noEdge_joinWithSpace (fs : List (List Char))
    (hne : ∀ f ∈ fs, f ≠ []) (hs : ∀ f ∈ fs, NoEdge f) : NoEdge (joinWithSpace fs) := by
  cases fs with
  | nil =>
    constructor
    · intro x hx; simp [joinWithSpace] at hx
    · intro x hx; simp [joinWithSpace] at hx
  | cons f rest =>
    constructor
    · intro x hx
      rw [head?_joinWithSpace f rest (hne f (by simp))] at hx
      exact (hs f (by simp)).1 x hx
    · intro x hx
      obtain ⟨lf, hmem, hl⟩ := getLast?_joinWithSpace rest f hne
      rw [hl] at hx
      exact (hs lf hmem).2 x hx

theorem pyStrip_getTextSpace (n : Node) : pyStrip (getTextSpace n) = getTextSpace n := by
  unfold getTextSpace pyStrip
  congr 1
  apply pyStripList_eq_self
  apply noEdge_joinWithSpace
  · intro f hf
    rw [List.mem_filter] at hf
    simpa using hf.2
  · intro f hf
    rw [List.mem_filter] at hf
    obtain ⟨hm, _⟩ := hf
    rw [List.mem_map] at hm
    obtain ⟨s, _, hfe⟩ := hm
    rw [← hfe]
    exact noEdge_pyStripList _

/-! ### Claims -/

/-- C1: the extraction result always carries all six section values (the
`ParsedReport` fields, filled exactly from the section extractors, so no key is
ever missing or null and no error is raised), and whenever a section's anchor
is absent from the document — or the anchor exists but no table (resp. no
`section` container for the lookup) follows it — the corresponding value is
the empty sequence (resp. the empty mapping). -/
theorem malwareScrape_section_defaults (doc : List Node) :
    (malwareScrapeResult doc).malware_lookup = malwareLookup doc ∧
    (malwareScrapeResult doc).apkid_analysis = extract_table doc "apkid" ∧
    (malwareScrapeResult doc).behaviour_analysis = extract_table doc "behaviour" ∧
    (malwareScrapeResult doc).domain_malware_check = extract_table doc "malware_check" ∧
    (malwareScrapeResult doc).urls = extract_table doc "urls" ∧
    (malwareScrapeResult doc).emails = extract_table doc "emails" ∧
    (∀ sid, hasAnchor doc sid = false → extract_table doc sid = []) ∧
    (∀ sid suf, findSuffixAfter (isAnchorWith sid) (docOrder doc) = some suf →
      suf.find? (isTag "table") = none → extract_table doc sid = []) ∧
    (hasAnchor doc "malware_lookup" = false → malwareLookup doc = []) ∧
    (∀ suf, findSuffixAfter (isAnchorWith "malware_lookup") (docOrder doc) = some suf →
      suf.find? (isTag "section") = none → malwareLookup doc = []) := by
  refine ⟨rfl, rfl, rfl, rfl, rfl, rfl, ?_, ?_, ?_, ?_⟩
  · intro sid h
    exact extract_table_of_no_anchor h
  · intro sid suf h ht
    exact extract_table_of_no_table h ht
  · intro h
    exact malwareLookup_of_no_anchor h
  · intro suf h hs
    exact malwareLookup_of_no_section h hs

/-- Witness for C1 at a document with no anchors at all. -/
theorem malwareScrape_section_defaults_witness :
    extract_table [Node.text "hello"] "apkid" = [] ∧
    malwareLookup [Node.text "hello"] = [] := by
  constructor
  · exact (malwareScrape_section_defaults [Node.text "hello"]).2.2.2.2.2.2.1 "apkid" (by decide)
  · exact (malwareScrape_section_defaults [Node.text "hello"]).2.2.2.2.2.2.2.2.1 (by decide)

/-- C2: the serialized `ParsedReport` is a JSON object whose top-level keys
are exactly the six section keys in order; the lookup value is always an
object and the table values always arrays (never null, never omitted), and a
section whose anchor is absent serializes as the empty object/array. -/
theorem parsedReport_toJson_shape (doc : List Node) :
    ∃ ml a b d u e,
      (malwareScrapeResult doc).toJson =
        Json.obj
          [("malware_lookup", Json.obj ml), ("apkid_analysis", Json.arr a),
           ("behaviour_analysis", Json.arr b), ("domain_malware_check", Json.arr d),
           ("urls", Json.arr u), ("emails", Json.arr e)] ∧
      (hasAnchor doc "malware_lookup" = false → ml = []) ∧
      (hasAnchor doc "apkid" = false → a = []) ∧
      (hasAnchor doc "behaviour" = false → b = []) ∧
      (hasAnchor doc "malware_check" = false → d = []) ∧
      (hasAnchor doc "urls" = false → u = []) ∧
      (hasAnchor doc "emails" = false → e = []) := by
  refine ⟨_, _, _, _, _, _, rfl, ?_, ?_, ?_, ?_, ?_, ?_⟩
  · intro h
    simp [malwareScrapeResult, malwareLookup_of_no_anchor h]
  · intro h
    simp [malwareScrapeResult, extract_table_of_no_anchor h]
  · intro h
    simp [malwareScrapeResult, extract_table_of_no_anchor h]
  · intro h
    simp [malwareScrapeResult, extract_table_of_no_anchor h]
  · intro h
    simp [malwareScrapeResult, extract_table_of_no_anchor h]
  · intro h
    simp [malwareScrapeResult, extract_table_of_no_anchor h]

/-- Witness for C2 at a document with no anchors. -/
theorem parsedReport_toJson_shape_witness :
    ∃ ml a b d u e,
      (malwareScrapeResult [Node.text "plain"]).toJson =
        Json.obj
          [("malware_lookup", Json.obj ml), ("apkid_analysis", Json.arr a),
           ("behaviour_analysis", Json.arr b), ("domain_malware_check", Json.arr d),
           ("urls", Json.arr u), ("emails", Json.arr e)] ∧
      (hasAnchor [Node.text "plain"] "malware_lookup" = false → ml = []) ∧
      (hasAnchor [Node.text "plain"] "apkid" = false → a = []) ∧
      (hasAnchor [Node.text "plain"] "behaviour" = false → b = []) ∧
      (hasAnchor [Node.text "plain"] "malware_check" = false → d = []) ∧
      (hasAnchor [Node.text "plain"] "urls" = false → u = []) ∧
      (hasAnchor [Node.text "plain"] "emails" = false → e = []) :=
  parsedReport_toJson_shape [Node.text "plain"]

/-- C3 counterexample: the claim says an unparseable document (its own example:
empty bytes) makes extraction fail with a ParseError, but `html.parser` is
total — the empty file parses to the empty soup and the endpoint returns a
complete 200 result with every section at its empty default, not an error. -/
theorem empty_doc_no_parse_error_cex :
    malware_scrape (some "abc123") emptyDocStore =
      HttpResp.ok (Json.obj
        [("hash", Json.str "abc123"),
         ("parsed_report", Json.obj
           [("malware_lookup", Json.obj []), ("apkid_analysis", Json.arr []),
            ("behaviour_analysis", Json.arr []), ("domain_malware_check", Json.arr []),
            ("urls", Json.arr []), ("emails", Json.arr [])])]) := rfl

/-- C3 (amended): extraction never fails on document content — whenever the
report file exists (the store yields a parsed document, parsing being total),
the endpoint returns the full report; the only failures are the missing/empty
hash parameter and the collaborator-level not-found. -/
theorem scrape_ok_of_found (h : String) (store : String → Option (List Node))
    (doc : List Node) (hne : h ≠ "") (hs : store h = some doc) :
    malware_scrape (some h) store = HttpResp.ok (scrapeResponse h doc) := by
  simp [malware_scrape, hne, hs]

/-- Witness for C3 at the store holding one empty document. -/
theorem scrape_ok_of_found_witness :
    malware_scrape (some "abc123") emptyDocStore =
      HttpResp.ok (scrapeResponse "abc123" []) :=
  scrape_ok_of_found "abc123" emptyDocStore [] (by decide) rfl

/-- Modelled from the claim's words, for comparison only: field names taken
from the table's first-row header cells alone, lowercased and trimmed. -/
def specFirstRowHeaderNames (table : Node) : List String :=
  match findAllTag "tr" table with
  | [] => []
  | tr1 :: _ => (findAllTag "th" tr1).map (fun h => pyLower (getTextNoSep h))

/-- C4 counterexample: the code's `table.find_all("th")` collects header cells
from every row, so on a table whose second row contains `<th>B</th>` the field
name `b` appears in the emitted records, which the claim forbids. -/
theorem headers_not_first_row_only_cex :
    headerNames tableMixedTh ≠ specFirstRowHeaderNames tableMixedTh ∧
    headerNames tableMixedTh = ["a", "b"] ∧
    specFirstRowHeaderNames tableMixedTh = ["a"] ∧
    tableRows tableMixedTh = [[("a", "x")], [("a", "1"), ("b", "2")]] := by
  refine ⟨by decide, by decide, by decide, by decide⟩

/-- C4 (amended): the field names of the emitted records come from the table's
header (`th`) cells taken in document order across ALL rows, each lowercased
and trimmed — every key of every emitted record is one of these header names. -/
theorem record_keys_from_headers (t : Node) (r : List (String × String))
    (kv : String × String) (hr : r ∈ tableRows t) (hkv : kv ∈ r) :
    kv.1 ∈ headerNames t := by
  obtain ⟨tr, _, _, heq⟩ := mem_tableRows hr
  rw [heq] at hkv
  have hz := mem_dictOfPairs hkv
  exact (List.of_mem_zip hz).1

/-- Witness for C4: the key `b` of a record of the mixed table is a header name. -/
theorem record_keys_from_headers_witness :
    ("b" : String) ∈ headerNames tableMixedTh :=
  record_keys_from_headers tableMixedTh [("a", "1"), ("b", "2")] ("b", "2")
    (by decide) (by decide)

/-- C5: pairing of cells with field names uses the shorter of header count and
cell count — the record's fields are exactly the first `N` headers where `N`
is the cell count (clamped at the header count, extra cells silently dropped)
and its size is `min`; no malformed row fails (`rowRecord` is total). -/
theorem rowRecord_zip_shorter (headers cols : List String) (h : headers.Nodup) :
    rowRecord headers cols = headers.zip cols ∧
    (rowRecord headers cols).map Prod.fst = headers.take cols.length ∧
    (rowRecord headers cols).length = min headers.length cols.length := by
  have hz := rowRecord_nodup headers cols h
  refine ⟨hz, ?_, ?_⟩
  · rw [hz, map_fst_zip_eq_take]
  · rw [hz, List.length_zip]

/-- A section table with a ragged body: a short row and an over-long row. -/
def docRagged : List Node :=
  [anchorNode "apkid",
   tableNode
     [trNode [thNode "A", thNode "B", thNode "C"],
      trNode [tdNode "1"],
      trNode [tdNode "1", tdNode "2", tdNode "3", tdNode "4"]]]

/-- Witness for C5 on concrete ragged rows, including end-to-end extraction. -/
theorem rowRecord_zip_shorter_witness :
    rowRecord ["a", "b", "c"] ["1"] = [("a", "1")] ∧
    rowRecord ["a", "b", "c"] ["1", "2", "3", "4"] = [("a", "1"), ("b", "2"), ("c", "3")] ∧
    extract_table docRagged "apkid" = [[("a", "1")], [("a", "1"), ("b", "2"), ("c", "3")]] := by
  refine ⟨?_, ?_, by decide⟩
  · have := (rowRecord_zip_shorter ["a", "b", "c"] ["1"] (by decide)).1
    simpa using this
  · have := (rowRecord_zip_shorter ["a", "b", "c"] ["1", "2", "3", "4"] (by decide)).1
    simpa using this

/-- C6: each link's lowercased stripped text is tested against the keywords in
the fixed order virustotal, triage, metadefender, hybrid (the last writing key
`hybrid_analysis`); only the first matching keyword assigns, a non-matching
link leaves the mapping unchanged, an assignment overwrites any prior value of
the same key, and of two triage links the second one's URL survives. -/
theorem classifyLink_priority (d : List (String × String)) (text href : String) :
    (strContains text "virustotal" = true →
      classifyLink d text href = dictInsert d "virustotal" href) ∧
    (strContains text "virustotal" = false → strContains text "triage" = true →
      classifyLink d text href = dictInsert d "triage" href) ∧
    (strContains text "virustotal" = false → strContains text "triage" = false →
      strContains text "metadefender" = true →
      classifyLink d text href = dictInsert d "metadefender" href) ∧
    (strContains text "virustotal" = false → strContains text "triage" = false →
      strContains text "metadefender" = false → strContains text "hybrid" = true →
      classifyLink d text href = dictInsert d "hybrid_analysis" href) ∧
    (strContains text "virustotal" = false → strContains text "triage" = false →
      strContains text "metadefender" = false → strContains text "hybrid" = false →
      classifyLink d text href = d) ∧
    (∀ k v, dictLookup (dictInsert d k v) k = some v) ∧
    malwareLookup docTwoTriage = [("triage", "https://t2.example/b")] := by
  refine ⟨?_, ?_, ?_, ?_, ?_, fun k v => dictLookup_dictInsert d k v, by decide⟩
  · intro h1
    simp [classifyLink, h1]
  · intro h1 h2
    simp [classifyLink, h1, h2]
  · intro h1 h2 h3
    simp [classifyLink, h1, h2, h3]
  · intro h1 h2 h3 h4
    simp [classifyLink, h1, h2, h3, h4]
  · intro h1 h2 h3 h4
    simp [classifyLink, h1, h2, h3, h4]

/-- Witness for C6: a triage-only text takes the triage branch, and the
metadefender keyword is shadowed when virustotal also occurs. -/
theorem classifyLink_priority_witness :
    classifyLink [] "triage report" "u" = dictInsert [] "triage" "u" ∧
    classifyLink [] "virustotal and metadefender" "u" = dictInsert [] "virustotal" "u" := by
  constructor
  · exact (classifyLink_priority [] "triage report" "u").2.1 (by decide) (by decide)
  · exact (classifyLink_priority [] "virustotal and metadefender" "u").1 (by decide)

/-- C7: extraction is pure, hence idempotent on the same document, and the
emitted sequence is the in-order image of the kept source rows — a map over
the filtered row list, so source row order is preserved and duplicates are
neither removed nor reordered. -/
theorem tableRows_order_idempotent (doc : List Node) (sid : String) (t : Node) :
    extract_table doc sid = extract_table doc sid ∧
    tableRows t =
      ((dataRows t).filter (fun tr => !(rowCols tr).isEmpty)).map
        (fun tr => rowRecord (headerNames t) (rowCols tr)) :=
  ⟨rfl, tableRows_eq_filter_map t⟩

/-- Witness for C7 at the mixed-header table. -/
theorem tableRows_order_idempotent_witness :
    extract_table exDocUrls "urls" = extract_table exDocUrls "urls" ∧
    tableRows tableMixedTh =
      ((dataRows tableMixedTh).filter (fun tr => !(rowCols tr).isEmpty)).map
        (fun tr => rowRecord (headerNames tableMixedTh) (rowCols tr)) :=
  tableRows_order_idempotent exDocUrls "urls" tableMixedTh

/-- C8: exactly one record is emitted per data row with a nonempty cell list,
and every emitted record arises from such a row — so a row that yields zero
data cells (a header-only row, or any cell-less row) is omitted entirely. -/
theorem zero_cell_rows_omitted (t : Node) :
    (tableRows t).length =
      ((dataRows t).filter (fun tr => !(rowCols tr).isEmpty)).length ∧
    (∀ r ∈ tableRows t, ∃ tr ∈ dataRows t,
      (rowCols tr).isEmpty = false ∧ r = rowRecord (headerNames t) (rowCols tr)) := by
  constructor
  · rw [tableRows_eq_filter_map, List.length_map]
  · intro r hr
    exact mem_tableRows hr

/-- A table with three data rows, the middle one having no data cells. -/
def tableZeroRow : Node :=
  tableNode
    [trNode [thNode "Email"],
     trNode [tdNode "a@b.c"],
     trNode [thNode "Extra"],
     trNode [tdNode "d@e.f"]]

/-- Witness for C8: of the three data rows, the cell-less one is dropped. -/
theorem zero_cell_rows_omitted_witness :
    (tableRows tableZeroRow).length =
      ((dataRows tableZeroRow).filter (fun tr => !(rowCols tr).isEmpty)).length ∧
    (dataRows tableZeroRow).length = 3 ∧ (tableRows tableZeroRow).length = 2 :=
  ⟨(zero_cell_rows_omitted tableZeroRow).1, by decide, by decide⟩

/-- Accumulator-based whitespace-run splitter (Python `s.split()`). -/
def splitRunsAux (acc : List Char) : List Char → List (List Char)
  | [] => if acc.isEmpty then [] else [acc.reverse]
  | c :: rest =>
    if pyIsSpace c then
      if acc.isEmpty then splitRunsAux [] rest else acc.reverse :: splitRunsAux [] rest
    else splitRunsAux (c :: acc) rest

/-- Modelled from the claim's words, for comparison only: trim surrounding
whitespace AND collapse internal whitespace runs to single spaces (Python's
`" ".join(s.split())`). -/
def specCollapse (s : String) : String :=
  String.mk (joinWithSpace (splitRunsAux [] s.data))

/-- C9 counterexample: `td.get_text(" ", strip=True)` strips each text
fragment but joins them as they are, so a run of two spaces inside a single
text node survives into the record — the claimed collapsed form differs. -/
theorem cell_whitespace_not_collapsed_cex :
    extract_table docRunWs "urls" = [[("url", "a  b")]] ∧
    specCollapse "a  b" = "a b" ∧
    ("a  b" : String) ≠ "a b" := by
  refine ⟨by decide, by decide, by decide⟩

/-- C9 (amended): every data-cell text in an emitted record is trimmed of
surrounding whitespace (each text fragment stripped, nonempty fragments joined
with single spaces — whitespace inside a fragment is preserved, not
collapsed), and the spec's minimal urls document extracts to the single
record mapping `url` to `http://x.test`. -/
theorem cell_text_trimmed (t : Node) (r : List (String × String))
    (kv : String × String) (hr : r ∈ tableRows t) (hkv : kv ∈ r) :
    pyStrip kv.2 = kv.2 ∧ extract_table exDocUrls "urls" = [[("url", "http://x.test")]] := by
  constructor
  · obtain ⟨tr, _, _, heq⟩ := mem_tableRows hr
    rw [heq] at hkv
    have hz := mem_dictOfPairs hkv
    have h2 := (List.of_mem_zip hz).2
    unfold rowCols at h2
    rw [List.mem_map] at h2
    obtain ⟨td, _, hte⟩ := h2
    rw [← hte]
    exact pyStrip_getTextSpace td
  · decide

/-- Witness for C9 at the spec's minimal urls document. -/
theorem cell_text_trimmed_witness :
    pyStrip "http://x.test" = "http://x.test" ∧
    extract_table exDocUrls "urls" = [[("url", "http://x.test")]] :=
  cell_text_trimmed (tableNode [trNode [thNode "URL"], trNode [tdNode " http://x.test "]])
    [("url", "http://x.test")] ("url", "http://x.test") (by decide) (by decide)

/-- C10: a table with no header cells anywhere still emits one record per data
row with a nonempty cell list, but every such record is the empty mapping —
all cell text is silently discarded. -/
theorem no_headers_empty_records (t : Node) (h : headerNames t = []) :
    tableRows t =
      ((dataRows t).filter (fun tr => !(rowCols tr).isEmpty)).map
        (fun _ => ([] : List (String × String))) := by
  rw [tableRows_eq_filter_map]
  apply List.map_congr_left
  intro tr _
  rw [h]
  rfl

/-- A headerless table: three rows, all data cells. -/
def tableNoTh : Node :=
  tableNode [trNode [tdNode "h1"], trNode [tdNode "v1"], trNode [tdNode "v2"]]

/-- Witness for C10: the headerless table yields two empty records. -/
theorem no_headers_empty_records_witness :
    tableRows tableNoTh =
      ((dataRows tableNoTh).filter (fun tr => !(rowCols tr).isEmpty)).map
        (fun _ => ([] : List (String × String))) ∧
    tableRows tableNoTh = [[], []] :=
  ⟨no_headers_empty_records tableNoTh (by decide), by decide⟩

end App
